import Mathlib

/-!
Verification of the ORC2 materialization-protocol bindings (`src/orc2/mod.rs`).

The Rust source is a thin wrapper over the external LLVM ORC runtime: the
wrapper's own behavior (ownership of arguments, receiver modes, the `Drop`
conditions, the shapes of the `Result` values) is embedded directly from the
source, while the behavior of the underlying runtime operations (symbol
tables, the per-symbol state machine, dependence propagation, resource
trackers, string interning) is modelled from the specification, as the code
that decides it is not part of this repository.
-/

namespace Orc2

/-! ### Symbol string pool

Modelled from the spec: the pool interns strings into reference-counted
handles; `intern` returns the unique handle for a text, bumping its count,
creating the entry if absent.  A handle is the index of its entry. -/

/-- One pool: a list of `(text, reference count)` entries; the handle for an
entry is its index in the list. -/
structure SymbolStringPool where
  entries : List (String × Nat)
deriving Repr, DecidableEq

/-- Index of the entry holding `text`, if any. -/
def poolFind : List (String × Nat) → String → Option Nat
  | [], _ => none
  | e :: rest, text =>
    if e.1 = text then some 0
    else (poolFind rest text).map (· + 1)

/-- Entry at index `i`. -/
def poolGet : List (String × Nat) → Nat → Option (String × Nat)
  | [], _ => none
  | e :: _, 0 => some e
  | _ :: rest, n + 1 => poolGet rest n

/-- Increment the reference count of the entry at index `i`. -/
def bumpAt : List (String × Nat) → Nat → List (String × Nat)
  | [], _ => []
  | e :: rest, 0 => (e.1, e.2 + 1) :: rest
  | e :: rest, n + 1 => e :: bumpAt rest n

/-- Modelled from the spec: `intern(text)` returns the unique handle for
`text`, increments its reference count, creating the entry (with count 1) if
absent.  The underlying `LLVMOrcExecutionSessionIntern` is external to the
repository. -/
def SymbolStringPool.intern (pool : SymbolStringPool) (text : String) :
    SymbolStringPool × Nat :=
  match poolFind pool.entries text with
  | some i => (⟨bumpAt pool.entries i⟩, i)
  | none => (⟨pool.entries ++ [(text, 1)]⟩, pool.entries.length)

/-- The text stored under a handle. -/
def SymbolStringPool.entryText (pool : SymbolStringPool) (h : Nat) : Option String :=
  (poolGet pool.entries h).map Prod.fst

/-- The reference count stored under a handle. -/
def SymbolStringPool.entryRefCount (pool : SymbolStringPool) (h : Nat) : Option Nat :=
  (poolGet pool.entries h).map Prod.snd

/-- From the source `Clone` impl for `SymbolStringPoolEntry`: cloning retains
the entry (count + 1) and returns the very same handle. -/
def SymbolStringPool.retain (pool : SymbolStringPool) (h : Nat) :
    SymbolStringPool × Nat :=
  (⟨bumpAt pool.entries h⟩, h)

theorem poolFind_bumpAt (l : List (String × Nat)) (i : Nat) (text : String) :
    poolFind (bumpAt l i) text = poolFind l text := by
  induction l generalizing i with
  | nil => cases i <;> rfl
  | cons e rest ih =>
    cases i with
    | zero => simp [bumpAt, poolFind]
    | succ n => simp [bumpAt, poolFind, ih]

theorem poolFind_some_lt {l : List (String × Nat)} {text : String} {i : Nat}
    (h : poolFind l text = some i) : i < l.length := by
  induction l generalizing i with
  | nil => simp [poolFind] at h
  | cons e rest ih =>
    by_cases he : e.1 = text
    · simp [poolFind, he] at h
      simp [List.length_cons]
      omega
    · simp [poolFind, he] at h
      cases hr : poolFind rest text with
      | none => rw [hr] at h; simp at h
      | some j =>
        rw [hr] at h
        simp at h
        have := ih hr
        simp [List.length_cons]
        omega

theorem poolFind_some_text {l : List (String × Nat)} {text : String} {i : Nat}
    (h : poolFind l text = some i) : (poolGet l i).map Prod.fst = some text := by
  induction l generalizing i with
  | nil => simp [poolFind] at h
  | cons e rest ih =>
    by_cases he : e.1 = text
    · simp [poolFind, he] at h
      subst h
      simp [poolGet, he]
    · simp [poolFind, he] at h
      cases hr : poolFind rest text with
      | none => rw [hr] at h; simp at h
      | some j =>
        rw [hr] at h
        simp at h
        subst h
        simpa [poolGet] using ih hr

theorem poolGet_bumpAt_fst (l : List (String × Nat)) (i j : Nat) :
    (poolGet (bumpAt l i) j).map Prod.fst = (poolGet l j).map Prod.fst := by
  induction l generalizing i j with
  | nil => cases i <;> cases j <;> rfl
  | cons e rest ih =>
    cases i with
    | zero => cases j <;> simp [bumpAt, poolGet]
    | succ n => cases j <;> simp [bumpAt, poolGet, ih]

theorem poolGet_bumpAt_self {l : List (String × Nat)} {j : Nat} (h : j < l.length) :
    poolGet (bumpAt l j) j = (poolGet l j).map (fun e => (e.1, e.2 + 1)) := by
  induction l generalizing j with
  | nil => simp at h
  | cons e rest ih =>
    cases j with
    | zero => simp [bumpAt, poolGet]
    | succ n =>
      simp [bumpAt, poolGet]
      exact ih (by simpa using h)

theorem bumpAt_length (l : List (String × Nat)) (i : Nat) :
    (bumpAt l i).length = l.length := by
  induction l generalizing i with
  | nil => cases i <;> rfl
  | cons e rest ih => cases i <;> simp [bumpAt, ih]

theorem poolGet_lt_isSome {l : List (String × Nat)} {j : Nat} (h : j < l.length) :
    (poolGet l j).isSome := by
  induction l generalizing j with
  | nil => simp at h
  | cons e rest ih =>
    cases j with
    | zero => simp [poolGet]
    | succ n => simpa [poolGet] using ih (by simpa using h)

theorem poolFind_append_none {l : List (String × Nat)} {text : String} (c : Nat)
    (h : poolFind l text = none) :
    poolFind (l ++ [(text, c)]) text = some l.length := by
  induction l with
  | nil => simp [poolFind]
  | cons e rest ih =>
    by_cases he : e.1 = text
    · simp [poolFind, he] at h
    · simp [poolFind, he] at h ⊢
      cases hr : poolFind rest text with
      | none => rw [ih hr]
      | some j => rw [hr] at h; simp at h

theorem poolGet_append_length (l : List (String × Nat)) (a : String × Nat) :
    poolGet (l ++ [a]) l.length = some a := by
  induction l with
  | nil => rfl
  | cons e rest ih => simpa [poolGet] using ih

/-- C8: interning is idempotent on content: interning the same text twice in a
session yields the same handle, whose underlying text is that text, and
cloning (retaining) a handle preserves identity while incrementing the
reference count. -/
theorem C8_intern_idempotent (pool : SymbolStringPool) (text : String) :
    ((pool.intern text).1.intern text).2 = (pool.intern text).2
    ∧ (pool.intern text).1.entryText (pool.intern text).2 = some text
    ∧ ((pool.intern text).1.intern text).1.entryText
        ((pool.intern text).1.intern text).2 = some text
    ∧ ((pool.intern text).1.retain (pool.intern text).2).2 = (pool.intern text).2
    ∧ ((pool.intern text).1.retain (pool.intern text).2).1.entryRefCount
        ((pool.intern text).1.retain (pool.intern text).2).2
      = ((pool.intern text).1.entryRefCount (pool.intern text).2).map (· + 1) := by
  cases hf : poolFind pool.entries text with
  | some i =>
    have hlt : i < pool.entries.length := poolFind_some_lt hf
    have htext : (poolGet pool.entries i).map Prod.fst = some text :=
      poolFind_some_text hf
    have hfind1 : poolFind (bumpAt pool.entries i) text = some i := by
      rw [poolFind_bumpAt]; exact hf
    have hlt1 : i < (bumpAt pool.entries i).length := by
      rw [bumpAt_length]; exact hlt
    have htext1 : (poolGet (bumpAt pool.entries i) i).map Prod.fst = some text := by
      rw [poolGet_bumpAt_fst]; exact htext
    have htext2 :
        (poolGet (bumpAt (bumpAt pool.entries i) i) i).map Prod.fst = some text := by
      rw [poolGet_bumpAt_fst]; exact htext1
    constructor
    · simp [SymbolStringPool.intern, hf, hfind1]
    constructor
    · simpa [SymbolStringPool.intern, hf, SymbolStringPool.entryText] using htext1
    constructor
    · simpa [SymbolStringPool.intern, hf, hfind1, SymbolStringPool.entryText]
        using htext2
    constructor
    · simp [SymbolStringPool.intern, hf, SymbolStringPool.retain]
    · simp [SymbolStringPool.intern, hf, SymbolStringPool.retain,
        SymbolStringPool.entryRefCount]
      rw [poolGet_bumpAt_self hlt1]
      cases hg : poolGet (bumpAt pool.entries i) i with
      | none =>
        have := poolGet_lt_isSome hlt1
        rw [hg] at this
        simp at this
      | some e => simp
  | none =>
    have hfind1 : poolFind (pool.entries ++ [(text, 1)]) text
        = some pool.entries.length := poolFind_append_none 1 hf
    have hget1 : poolGet (pool.entries ++ [(text, 1)]) pool.entries.length
        = some (text, 1) := poolGet_append_length pool.entries (text, 1)
    have hlt1 : pool.entries.length < (pool.entries ++ [(text, 1)]).length := by
      simp
    have htext2 :
        (poolGet (bumpAt (pool.entries ++ [(text, 1)]) pool.entries.length)
          pool.entries.length).map Prod.fst = some text := by
      rw [poolGet_bumpAt_fst]; simp [hget1]
    constructor
    · simp [SymbolStringPool.intern, hf, hfind1]
    constructor
    · simp [SymbolStringPool.intern, hf, SymbolStringPool.entryText, hget1]
    constructor
    · simpa [SymbolStringPool.intern, hf, hfind1, SymbolStringPool.entryText]
        using htext2
    constructor
    · simp [SymbolStringPool.intern, hf, SymbolStringPool.retain]
    · simp [SymbolStringPool.intern, hf, SymbolStringPool.retain,
        SymbolStringPool.entryRefCount]
      rw [poolGet_bumpAt_self hlt1]
      simp [hget1]

/-! ### Data model of the materialization protocol

Modelled from the spec: the execution session owns the namespaces (JIT
dynamic libraries), each a mutable table of symbol-name to definition-state
bindings; every definition belongs to one resource tracker; pending and
resolved symbols are owned by exactly one materialization responsibility;
dependence edges record cross-symbol ordering used for failure propagation.
The code implementing these operations is the external LLVM ORC runtime; the
repository only contains the FFI wrappers. -/

/-- An interned symbol handle. -/
abbrev Sym := Nat

/-- Identifier of a JIT dynamic library (namespace). -/
abbrev DylibId := Nat

/-- Identifier of a materialization responsibility. -/
abbrev RespId := Nat

/-- Identifier of a resource tracker. -/
abbrev TrackerId := Nat

/-- A symbol in a namespace. -/
abbrev Node := DylibId × Sym

/-- From the source `SymbolFlags`: a pair of small bitfields. -/
structure SymbolFlags where
  genericFlags : Nat
  targetFlags : Nat
deriving Repr, DecidableEq

/-- From the source `EvaluatedSymbol`: a resolved address with its flags. -/
structure EvaluatedSymbol where
  address : Nat
  flags : SymbolFlags
deriving Repr, DecidableEq

/-- Per-symbol definition state inside a namespace; pending and resolved
symbols carry their owning responsibility. -/
inductive DefState
  | pendingSt (owner : RespId)
  | resolvedSt (owner : RespId) (value : EvaluatedSymbol)
  | emittedSt (value : EvaluatedSymbol)
deriving Repr, DecidableEq

/-- The responsibility owning a pending or resolved symbol. -/
def DefState.owner : DefState → Option RespId
  | .pendingSt r => some r
  | .resolvedSt r _ => some r
  | .emittedSt _ => none

/-- Whether a state is pending (claimed, not yet resolved). -/
def DefState.isPending : DefState → Bool
  | .pendingSt _ => true
  | _ => false

/-- Whether a state is resolved (address known, not yet emitted). -/
def DefState.isResolved : DefState → Bool
  | .resolvedSt _ _ => true
  | _ => false

/-- Whether a state is emitted (fully available to lookups). -/
def DefState.isEmitted : DefState → Bool
  | .emittedSt _ => true
  | _ => false

/-- One binding of a namespace's symbol table. -/
structure TableEntry where
  dylib : DylibId
  sym : Sym
  flags : SymbolFlags
  tracker : TrackerId
  state : DefState
deriving Repr, DecidableEq

/-- A namespace registered in the session, with its default tracker. -/
structure DylibInfo where
  id : DylibId
  name : String
  defaultTracker : TrackerId
deriving Repr, DecidableEq

/-- A live resource tracker of a namespace. -/
structure TrackerInfo where
  id : TrackerId
  dylib : DylibId
  isDefault : Bool
deriving Repr, DecidableEq

/-- From the source `MaterializationUnit::create`: a name, the promised
`(symbol, flags)` pairs and an optional initializer symbol (the materializer
object is opaque to the protocol state). -/
structure MaterializationUnit where
  unitName : String
  symbols : List (Sym × SymbolFlags)
  initSym : Option Sym
deriving Repr, DecidableEq

/-- The live token for one in-flight materialization: its identity and its
target namespace.  The set of symbols it governs is recorded in the
namespace table via `DefState.owner`. -/
structure MaterializationResponsibility where
  id : RespId
  dylib : DylibId
deriving Repr, DecidableEq

/-- Error kinds reported by the protocol operations. -/
inductive OrcError
  | duplicateDefinition
  | duplicateDylibName
  | unknownSymbol
  | prematureEmission
  | dependencyFailed
  | notPendingHere
deriving Repr, DecidableEq

/-- The whole protocol state owned by one execution session. -/
structure SessionSt where
  pool : SymbolStringPool
  dylibs : List DylibInfo
  trackers : List TrackerInfo
  table : List TableEntry
  deps : List (Node × Node)
  failed : List Node
  nextDylib : Nat
  nextTracker : Nat
  nextResp : Nat
deriving Repr, DecidableEq

/-- First table entry binding symbol `x` in namespace `d`. -/
def entryFor : List TableEntry → DylibId → Sym → Option TableEntry
  | [], _, _ => none
  | e :: rest, d, x =>
    if e.dylib = d ∧ e.sym = x then some e else entryFor rest d x

/-- Default tracker of a namespace, if the namespace exists. -/
def defaultTrackerOf (s : SessionSt) (d : DylibId) : Option TrackerId :=
  (s.dylibs.find? (fun i => decide (i.id = d))).map DylibInfo.defaultTracker

/-! ### Execution session operations -/

/-- Modelled from the spec: `create_jit_dylib(name)` fails if the name
already exists in this session; otherwise it allocates a namespace with a
fresh always-present default tracker. -/
def create_jit_dylib (s : SessionSt) (name : String) :
    Except OrcError (SessionSt × DylibId) :=
  if s.dylibs.any (fun d => decide (d.name = name)) then
    .error .duplicateDylibName
  else
    .ok ({ s with
      dylibs := s.dylibs ++ [⟨s.nextDylib, name, s.nextTracker⟩],
      trackers := s.trackers ++ [⟨s.nextTracker, s.nextDylib, true⟩],
      nextDylib := s.nextDylib + 1,
      nextTracker := s.nextTracker + 1 }, s.nextDylib)

/-- Modelled from the spec: `create_bare_jit_dylib(name)` never fails; it
always allocates a namespace (skipping default generators, a configuration
detail outside this model). -/
def create_bare_jit_dylib (s : SessionSt) (name : String) : SessionSt × DylibId :=
  ({ s with
    dylibs := s.dylibs ++ [⟨s.nextDylib, name, s.nextTracker⟩],
    trackers := s.trackers ++ [⟨s.nextTracker, s.nextDylib, true⟩],
    nextDylib := s.nextDylib + 1,
    nextTracker := s.nextTracker + 1 }, s.nextDylib)

/-! ### JITDylib operations -/

/-- Modelled from the spec: `define(unit)` atomically claims every symbol the
unit declares as pending in the namespace (under a fresh responsibility and
the namespace's default tracker); it fails with a duplicate-definition error
if any declared name already has a non-not-present definition. -/
def define (s : SessionSt) (d : DylibId) (u : MaterializationUnit) :
    Except OrcError SessionSt :=
  if u.symbols.any (fun p => (entryFor s.table d p.1).isSome) then
    .error .duplicateDefinition
  else
    .ok { s with
      table := s.table ++ u.symbols.map
        (fun p => ⟨d, p.1, p.2, (defaultTrackerOf s d).getD 0, .pendingSt s.nextResp⟩),
      nextResp := s.nextResp + 1 }

/-- Total wrapper around `define` keeping the session unchanged on error, to
state that a failing `define` does not mutate namespace state. -/
def defineIn (s : SessionSt) (d : DylibId) (u : MaterializationUnit) :
    SessionSt × Option OrcError :=
  match define s d u with
  | .ok s2 => (s2, none)
  | .error err => (s, some err)

/-! ### Materialization responsibility operations -/

/-- The symbols a responsibility currently governs (pending or resolved and
owned by it) in its target namespace. -/
def governedSyms (s : SessionSt) (mr : MaterializationResponsibility) : List Sym :=
  (s.table.filter (fun e =>
    decide (e.dylib = mr.dylib) && decide (e.state.owner = some mr.id))).map
    TableEntry.sym

/-- The nodes (namespace, symbol) a responsibility currently governs; these
are exactly its not-yet-emitted symbols. -/
def nodesOf (s : SessionSt) (mr : MaterializationResponsibility) : List Node :=
  (s.table.filter (fun e => decide (e.state.owner = some mr.id))).map
    (fun e => (e.dylib, e.sym))

/-- Whether symbol `x` is pending in `mr`'s namespace and owned by `mr`. -/
def ownedPending (s : SessionSt) (mr : MaterializationResponsibility) (x : Sym) :
    Bool :=
  match entryFor s.table mr.dylib x with
  | some e => decide (e.state = DefState.pendingSt mr.id)
  | none => false

/-- Modelled from the spec: `notify_resolved(address-map)` requires every
named symbol to be currently pending and owned by this responsibility
(resolving a symbol outside the responsibility, or one already resolved, is
an error); on success the named symbols move to the resolved state. -/
def notify_resolved (s : SessionSt) (mr : MaterializationResponsibility)
    (pairs : List (Sym × EvaluatedSymbol)) : Except OrcError SessionSt :=
  if pairs.all (fun p => ownedPending s mr p.1) then
    .ok { s with
      table := s.table.map (fun e =>
        match pairs.find? (fun p => decide (p.1 = e.sym)) with
        | some p =>
          if e.dylib = mr.dylib ∧ e.state = DefState.pendingSt mr.id then
            { e with state := .resolvedSt mr.id p.2 }
          else e
        | none => e) }
  else .error .unknownSymbol

/-- Whether every symbol of the responsibility is resolved, that is, none of
its symbols is still pending. -/
def allResolved (s : SessionSt) (mr : MaterializationResponsibility) : Bool :=
  s.table.all (fun e => !(decide (e.state = DefState.pendingSt mr.id)))

/-- Whether some dependency recorded for one of the responsibility's symbols
has itself failed. -/
def someDepFailed (s : SessionSt) (mr : MaterializationResponsibility) : Bool :=
  s.deps.any (fun ed =>
    decide (ed.1 ∈ nodesOf s mr) && decide (ed.2 ∈ s.failed))

/-- Modelled from the spec: `notify_emitted` requires every symbol of the
responsibility to be resolved and no recorded dependency to have failed;
otherwise it returns the error together with the responsibility itself, as
in the source signature `notify_emitted(self) -> Result<(), (Self, LLVMError)>`.
On success all its symbols become emitted. -/
def notify_emitted (s : SessionSt) (mr : MaterializationResponsibility) :
    Except (MaterializationResponsibility × OrcError) SessionSt :=
  if !(allResolved s mr) then .error (mr, .prematureEmission)
  else if someDepFailed s mr then .error (mr, .dependencyFailed)
  else
    .ok { s with
      table := s.table.map (fun e =>
        match e.state with
        | .resolvedSt r v => if r = mr.id then { e with state := .emittedSt v } else e
        | _ => e) }

/-- Modelled from the spec: `add_dependencies(name, edges)` records that the
given symbol must wait on the listed namespaces' symbols. -/
def add_dependencies (s : SessionSt) (mr : MaterializationResponsibility)
    (name : Sym) (dependencies : List (DylibId × List Sym)) : SessionSt :=
  { s with
    deps := s.deps ++ dependencies.flatMap
      (fun pr => pr.2.map (fun y => ((mr.dylib, name), (pr.1, y)))) }

/-- Modelled from the spec: `add_dependencies_for_all(edges)` records the
given dependencies for every symbol of the responsibility. -/
def add_dependencies_for_all (s : SessionSt) (mr : MaterializationResponsibility)
    (dependencies : List (DylibId × List Sym)) : SessionSt :=
  { s with
    deps := s.deps ++ (nodesOf s mr).flatMap (fun n =>
      dependencies.flatMap (fun pr => pr.2.map (fun y => (n, (pr.1, y))))) }

/-- Reassignment of one table entry performed by `delegate`: a pending entry
of the original responsibility whose symbol is in the delegated subset moves
to the fresh responsibility `nid`. -/
def delegUpdate (mr : MaterializationResponsibility) (names : List Sym)
    (nid : RespId) (e : TableEntry) : TableEntry :=
  if e.dylib = mr.dylib ∧ e.state = DefState.pendingSt mr.id ∧ e.sym ∈ names
  then { e with state := .pendingSt nid } else e

/-- Modelled from the spec: `delegate(subset)` requires the subset to belong
to this responsibility and be pending; it splits ownership of exactly that
subset off to a freshly created responsibility, the original keeping the
remainder. -/
def delegate (s : SessionSt) (mr : MaterializationResponsibility)
    (names : List Sym) :
    Except OrcError (SessionSt × MaterializationResponsibility) :=
  if names.all (fun x => ownedPending s mr x) then
    .ok ({ s with
      table := s.table.map (delegUpdate mr names s.nextResp),
      nextResp := s.nextResp + 1 }, ⟨s.nextResp, mr.dylib⟩)
  else .error .notPendingHere

/-! ### Failure propagation

Modelled from the spec: `fail_materialization` marks every not-yet-emitted
symbol of the responsibility as failed, removes them from their namespaces,
and propagates the failure through the dependence graph: every symbol whose
dependence edge points (transitively) at a failed one fails as well.  The
closure is computed as an explicit fixpoint over the edge list. -/

/-- One propagation step: sources of edges whose target is already in the
failure set and which are not yet in it themselves. -/
def depStep (deps : List (Node × Node)) (acc : List Node) : List Node :=
  (deps.filter (fun ed => decide (ed.2 ∈ acc) && !(decide (ed.1 ∈ acc)))).map
    Prod.fst

/-- Fuel-driven fixpoint iteration of `depStep`. -/
def closeDepsF : Nat → List (Node × Node) → List Node → List Node
  | 0, _, acc => acc
  | n + 1, deps, acc =>
    let step := depStep deps acc
    if step.isEmpty then acc else closeDepsF n deps (acc ++ step)

/-- Number of distinct edge sources not yet in the accumulator; an upper
bound on the number of productive iterations still possible. -/
def depMeasure (deps : List (Node × Node)) (acc : List Node) : Nat :=
  ((deps.map Prod.fst).dedup.filter (fun a => !(decide (a ∈ acc)))).length

/-- Transitive closure of a node set under reversed dependence edges. -/
def closeDeps (deps : List (Node × Node)) (acc : List Node) : List Node :=
  closeDepsF (depMeasure deps acc + 1) deps acc

/-- `x` transitively depends on `y` through the recorded dependence edges. -/
inductive DependsOn (deps : List (Node × Node)) : Node → Node → Prop
  | base {x y : Node} : (x, y) ∈ deps → DependsOn deps x y
  | step {x y z : Node} : (x, y) ∈ deps → DependsOn deps y z → DependsOn deps x z

/-- Modelled from the spec: `fail_materialization` computes the transitive
failure set seeded with the responsibility's not-yet-emitted symbols, removes
every not-yet-emitted definition in that set from its namespace and records
it as failed, so waiting and future lookups observe an error. -/
def fail_materialization (s : SessionSt) (mr : MaterializationResponsibility) :
    SessionSt :=
  let failSet := closeDeps s.deps (nodesOf s mr)
  { s with
    table := s.table.filter (fun e =>
      !(decide ((e.dylib, e.sym) ∈ failSet) && !(e.state.isEmitted))),
    failed := s.failed ++ failSet.filter (fun x =>
      s.table.any (fun e =>
        decide ((e.dylib, e.sym) = x) && !(e.state.isEmitted))) }

/-! ### Lookups -/

/-- Outcome of a lookup of one symbol. -/
inductive LookupOutcome
  | success (value : EvaluatedSymbol)
  | failure
  | blocked
  | notFound
deriving Repr, DecidableEq

/-- Modelled from the spec: a lookup observes failure for failed symbols,
the address for emitted ones, suspends on pending or resolved ones, and
reports absence otherwise. -/
def lookupSym (s : SessionSt) (x : Node) : LookupOutcome :=
  if x ∈ s.failed then .failure
  else
    match s.table.find? (fun e => decide ((e.dylib, e.sym) = x)) with
    | some e =>
      match e.state with
      | .emittedSt v => .success v
      | _ => .blocked
    | none => .notFound

/-! ### Resource trackers -/

/-- Modelled from the spec: `remove()` retracts every definition the tracker
owns whatever its state, fails any symbol still not emitted (so pending
responsibilities over them observe failure), invokes the materializer's
discard for the symbols not yet resolved (returned as the second component),
and consumes the tracker handle. -/
def removeTracker (s : SessionSt) (t : TrackerId) : SessionSt × List Node :=
  let covered := s.table.filter (fun e => decide (e.tracker = t))
  ({ s with
    table := s.table.filter (fun e => !(decide (e.tracker = t))),
    trackers := s.trackers.filter (fun i => !(decide (i.id = t))),
    failed := s.failed ++ (covered.filter (fun e => !(e.state.isEmitted))).map
      (fun e => (e.dylib, e.sym)) },
   (covered.filter (fun e => e.state.isPending)).map (fun e => (e.dylib, e.sym)))

/-- Reassignment of one table entry performed by a tracker release: entries
of the released tracker fold back to their namespace's default tracker. -/
def releaseUpdate (s : SessionSt) (t : TrackerId) (e : TableEntry) : TableEntry :=
  if e.tracker = t then
    { e with tracker := (defaultTrackerOf s e.dylib).getD e.tracker }
  else e

/-- Modelled from the spec: releasing a tracker folds every definition it
owns back into its namespace's default tracker, leaving each definition's
state untouched. -/
def releaseTracker (s : SessionSt) (t : TrackerId) : SessionSt :=
  { s with table := s.table.map (releaseUpdate s t) }

/-- From the source `ResourceTracker` struct: the raw handle and whether it
is the namespace's default tracker. -/
structure ResourceTracker where
  rt : TrackerId
  isDefaultHandle : Bool
deriving Repr, DecidableEq

/-- From the source `impl Drop for ResourceTracker`: dropping releases the
tracker exactly when it is not the default one and its pointer is non-null. -/
def dropsRelease (tr : ResourceTracker) : Bool :=
  !tr.isDefaultHandle && !(decide (tr.rt = 0))

/-- From the source `JITDylib::get_default_resource_tracker`: the handle is
constructed with the default flag set. -/
def get_default_resource_tracker (ptr : TrackerId) : ResourceTracker :=
  ⟨ptr, true⟩

/-- From the source `JITDylib::create_resource_tracker`: the handle is
constructed with the default flag cleared. -/
def create_resource_tracker (ptr : TrackerId) : ResourceTracker :=
  ⟨ptr, false⟩

/-- From the source `impl Drop for ResourceTracker` combined with the spec's
release semantics: dropping a handle releases (folds back) exactly when the
drop condition holds. -/
def dropTracker (s : SessionSt) (tr : ResourceTracker) : SessionSt :=
  if dropsRelease tr then releaseTracker s tr.rt else s

/-! ### Rust-side ownership behavior of the wrapper

These definitions are read off the Rust signatures and bodies in
`src/orc2/mod.rs`: which operations take their receiver or argument by value
and what happens to it on each result path. -/

/-- How a method takes the `MaterializationResponsibility` receiver. -/
inductive SelfMode
  | byValue
  | byRef
deriving Repr, DecidableEq

/-- State of a Rust binding after an operation. -/
inductive OwnState
  | live
  | moved
deriving Repr, DecidableEq

/-- From the source: `fn notify_emitted(self)` takes the responsibility by
value. -/
def notifyEmittedSelfMode : SelfMode := .byValue

/-- From the source: `fn delegate(&self, ...)` borrows the responsibility. -/
def delegateSelfMode : SelfMode := .byRef

/-- From the source: `fn replace(&self, ...)` borrows the responsibility. -/
def replaceSelfMode : SelfMode := .byRef

/-- From the source: `fn fail_materialization(&self)` borrows the
responsibility. -/
def failMaterializationSelfMode : SelfMode := .byRef

/-- From the source: `fn notify_resolved(&self, ...)` borrows the
responsibility. -/
def notifyResolvedSelfMode : SelfMode := .byRef

/-- From the source `JITDylib::define`: the unit is taken by value and
`forget` runs on it before the result is returned, on the error path as well,
so the unit is moved whatever the outcome. -/
def defineUnitAfter (_errOccurred : Bool) : OwnState := OwnState.moved

/-- From the source `MaterializationResponsibility::replace`: the unit is
taken by value and `forget` runs on it before the result is returned, on the
error path as well. -/
def replaceUnitAfter (_errOccurred : Bool) : OwnState := OwnState.moved

/-- From the source `notify_emitted`: `map_err(|err| (self, err))` hands the
responsibility back to the caller on error only. -/
def notifyEmittedRespAfter (errOccurred : Bool) : OwnState :=
  if errOccurred then OwnState.live else OwnState.moved

/-! ### Properties of the failure closure -/

theorem length_filter_mono {α : Type} (l : List α) (p q : α → Bool)
    (h : ∀ b ∈ l, q b = true → p b = true) :
    (l.filter q).length ≤ (l.filter p).length := by
  induction l with
  | nil => simp
  | cons b rest ih =>
    have ht : ∀ c ∈ rest, q c = true → p c = true := fun c hc => h c (by simp [hc])
    cases hq : q b with
    | true =>
      have hp : p b = true := h b (by simp) hq
      simp [List.filter_cons, hq, hp]
      exact ih ht
    | false =>
      cases hp : p b with
      | true =>
        simp [List.filter_cons, hq, hp]
        exact Nat.le_succ_of_le (ih ht)
      | false =>
        simp [List.filter_cons, hq, hp]
        exact ih ht

theorem length_filter_lt {α : Type} (l : List α) (p q : α → Bool)
    (h : ∀ b ∈ l, q b = true → p b = true) (a : α) (ha : a ∈ l)
    (hpa : p a = true) (hqa : q a = false) :
    (l.filter q).length < (l.filter p).length := by
  induction l with
  | nil => simp at ha
  | cons b rest ih =>
    have ht : ∀ c ∈ rest, q c = true → p c = true := fun c hc => h c (by simp [hc])
    rcases List.mem_cons.mp ha with hab | harest
    · subst hab
      simp [List.filter_cons, hqa, hpa]
      exact Nat.lt_succ_of_le (length_filter_mono rest p q ht)
    · cases hq : q b with
      | true =>
        have hp : p b = true := h b (by simp) hq
        simp [List.filter_cons, hq, hp]
        exact ih ht harest
      | false =>
        cases hp : p b with
        | true =>
          simp [List.filter_cons, hq, hp]
          exact Nat.lt_succ_of_lt (ih ht harest)
        | false =>
          simp [List.filter_cons, hq, hp]
          exact ih ht harest

theorem closeDepsF_subset (n : Nat) (deps : List (Node × Node))
    (acc : List Node) : acc ⊆ closeDepsF n deps acc := by
  induction n generalizing acc with
  | zero => simp [closeDepsF]
  | succ m ih =>
    intro a ha
    simp only [closeDepsF]
    by_cases hstep : (depStep deps acc).isEmpty
    · simpa [hstep] using ha
    · simp only [hstep, if_false]
      exact ih (acc ++ depStep deps acc) (List.mem_append_left _ ha)

theorem mem_depStep {deps : List (Node × Node)} {acc : List Node} {a : Node}
    (h : a ∈ depStep deps acc) :
    ∃ ed ∈ deps, ed.1 = a ∧ ed.2 ∈ acc ∧ a ∉ acc := by
  simp only [depStep, List.mem_map, List.mem_filter] at h
  obtain ⟨ed, ⟨hmem, hcond⟩, heq⟩ := h
  simp only [Bool.and_eq_true, Bool.not_eq_true', decide_eq_true_eq,
    decide_eq_false_iff_not] at hcond
  exact ⟨ed, hmem, heq, hcond.1, heq ▸ hcond.2⟩

theorem depMeasure_step_lt {deps : List (Node × Node)} {acc : List Node}
    (h : ¬(depStep deps acc).isEmpty) :
    depMeasure deps (acc ++ depStep deps acc) < depMeasure deps acc := by
  rw [List.isEmpty_iff] at h
  obtain ⟨a, ha⟩ := List.exists_mem_of_ne_nil _ h
  obtain ⟨ed, hmem, heq, _, hnotin⟩ := mem_depStep ha
  apply length_filter_lt ((deps.map Prod.fst).dedup)
    (fun b => !(decide (b ∈ acc))) (fun b => !(decide (b ∈ acc ++ depStep deps acc)))
  · intro b _ hb
    simp only [Bool.not_eq_true', decide_eq_false_iff_not, List.mem_append] at hb ⊢
    intro hbacc
    exact hb (Or.inl hbacc)
  · rw [List.mem_dedup]
    exact List.mem_map.mpr ⟨ed, hmem, heq⟩
  · simpa using hnotin
  · simp only [Bool.not_eq_true', decide_eq_true_eq, List.mem_append,
      Bool.not_eq_true, decide_eq_false_iff_not]
    simp [ha]

theorem closeDepsF_closed (n : Nat) (deps : List (Node × Node))
    (acc : List Node) (hfuel : depMeasure deps acc < n) :
    ∀ ed ∈ deps, ed.2 ∈ closeDepsF n deps acc → ed.1 ∈ closeDepsF n deps acc := by
  induction n generalizing acc with
  | zero => omega
  | succ m ih =>
    intro ed hed
    by_cases hstep : (depStep deps acc).isEmpty
    · simp only [closeDepsF, hstep, if_true]
      intro h2
      by_contra h1
      have : ed.1 ∈ depStep deps acc := by
        simp only [depStep, List.mem_map]
        refine ⟨ed, ?_, rfl⟩
        rw [List.mem_filter]
        exact ⟨hed, by simp [h2, h1]⟩
      rw [List.isEmpty_iff] at hstep
      rw [hstep] at this
      simp at this
    · simp only [closeDepsF, hstep, if_false]
      have hlt : depMeasure deps (acc ++ depStep deps acc) < m := by
        have := depMeasure_step_lt hstep
        omega
      exact ih (acc ++ depStep deps acc) hlt ed hed

theorem closeDeps_subset (deps : List (Node × Node)) (acc : List Node) :
    acc ⊆ closeDeps deps acc :=
  closeDepsF_subset _ deps acc

theorem closeDeps_closed (deps : List (Node × Node)) (acc : List Node) :
    ∀ ed ∈ deps, ed.2 ∈ closeDeps deps acc → ed.1 ∈ closeDeps deps acc :=
  closeDepsF_closed _ deps acc (Nat.lt_succ_self _)

theorem DependsOn.mem_closeDeps {deps : List (Node × Node)} {acc : List Node}
    {x y : Node} (h : DependsOn deps x y) (hy : y ∈ closeDeps deps acc) :
    x ∈ closeDeps deps acc := by
  induction h with
  | base hmem => exact closeDeps_closed deps acc _ hmem hy
  | step hmem _ ih => exact closeDeps_closed deps acc _ hmem (ih hy)

/-! ### Claim theorems -/

/-- C1: `notify_emitted` succeeds exactly when every symbol of the
responsibility is resolved and no recorded dependency has failed; on error
the responsibility itself is handed back with the error (not consumed); on
success the responsibility is consumed and governs no symbol any more. -/
theorem C1_notify_emitted_contract (s : SessionSt)
    (mr : MaterializationResponsibility) :
    ((notify_emitted s mr).isOk ↔
      ((∀ e ∈ s.table, e.state ≠ DefState.pendingSt mr.id)
        ∧ ∀ ed ∈ s.deps, ed.1 ∈ nodesOf s mr → ed.2 ∉ s.failed))
    ∧ (∀ p, notify_emitted s mr = .error p → p.1 = mr)
    ∧ (∀ s2, notify_emitted s mr = .ok s2 → governedSyms s2 mr = []) := by
  have hall : allResolved s mr = true ↔
      ∀ e ∈ s.table, e.state ≠ DefState.pendingSt mr.id := by
    simp [allResolved, List.all_eq_true]
  have hdep : someDepFailed s mr = false ↔
      ∀ ed ∈ s.deps, ed.1 ∈ nodesOf s mr → ed.2 ∉ s.failed := by
    rw [← Bool.not_eq_true, someDepFailed, List.any_eq_true]
    constructor
    · intro h ed hed hmem hfl
      exact h ⟨ed, hed, by simp [hmem, hfl]⟩
    · rintro h ⟨ed, hed, hcond⟩
      simp only [Bool.and_eq_true, decide_eq_true_eq] at hcond
      exact h ed hed hcond.1 hcond.2
  refine ⟨?_, ?_, ?_⟩
  · constructor
    · intro hok
      have h1 : allResolved s mr = true := by
        by_contra h1
        rw [Bool.not_eq_true] at h1
        simp [notify_emitted, h1, Except.isOk, Except.toBool] at hok
      have h2 : someDepFailed s mr = false := by
        by_contra h2
        rw [Bool.not_eq_false] at h2
        simp [notify_emitted, h1, h2, Except.isOk, Except.toBool] at hok
      exact ⟨hall.mp h1, hdep.mp h2⟩
    · rintro ⟨ha, hd⟩
      simp [notify_emitted, hall.mpr ha, hdep.mpr hd, Except.isOk, Except.toBool]
  · intro p hp
    by_cases h1 : allResolved s mr = true
    · by_cases h2 : someDepFailed s mr = true
      · have heq : notify_emitted s mr
            = .error (mr, OrcError.dependencyFailed) := by
          simp [notify_emitted, h1, h2]
        rw [heq] at hp
        cases hp
        rfl
      · rw [Bool.not_eq_true] at h2
        simp [notify_emitted, h1, h2] at hp
    · rw [Bool.not_eq_true] at h1
      have heq : notify_emitted s mr
          = .error (mr, OrcError.prematureEmission) := by
        simp [notify_emitted, h1]
      rw [heq] at hp
      cases hp
      rfl
  · intro s2 h
    have h1 : allResolved s mr = true := by
      by_contra h1
      rw [Bool.not_eq_true] at h1
      simp [notify_emitted, h1] at h
    have h2 : someDepFailed s mr = false := by
      by_contra h2
      rw [Bool.not_eq_false] at h2
      simp [notify_emitted, h1, h2] at h
    have hs2 : Except.ok (ε := MaterializationResponsibility × OrcError)
        { s with table := s.table.map (fun e =>
          match e.state with
          | DefState.resolvedSt r v =>
            if r = mr.id then { e with state := DefState.emittedSt v } else e
          | _ => e) } = Except.ok s2 := by
      rw [← h]
      simp [notify_emitted, h1, h2]
    have hs2eq : s2 = { s with table := s.table.map (fun e =>
        match e.state with
        | DefState.resolvedSt r v =>
          if r = mr.id then { e with state := DefState.emittedSt v } else e
        | _ => e) } := by
      cases hs2
      rfl
    subst hs2eq
    simp only [governedSyms]
    have hnil : ∀ (l : List TableEntry), (∀ e ∈ l, e.state ≠ DefState.pendingSt mr.id) →
        ((l.map (fun e =>
          match e.state with
          | DefState.resolvedSt r v =>
            if r = mr.id then { e with state := DefState.emittedSt v } else e
          | _ => e)).filter (fun e =>
          decide (e.dylib = mr.dylib) && decide (e.state.owner = some mr.id)))
          = [] := by
      intro l hl
      induction l with
      | nil => rfl
      | cons e rest ih =>
        have hrest := ih (fun e2 he2 => hl e2 (by simp [he2]))
        have hne := hl e (by simp)
        obtain ⟨ed, esym, efl, etr, est⟩ := e
        cases est with
        | pendingSt r =>
          have hr : r ≠ mr.id := by
            intro hc
            exact hne (by simp [hc])
          simp only [List.map_cons, List.filter_cons]
          rw [hrest]
          simp [DefState.owner, hr]
        | resolvedSt r v =>
          rcases eq_or_ne r mr.id with hr | hr
          · subst hr
            simp only [List.map_cons, List.filter_cons]
            rw [hrest]
            simp [DefState.owner]
          · simp only [List.map_cons, List.filter_cons]
            rw [hrest]
            simp [DefState.owner, hr]
        | emittedSt v =>
          simp only [List.map_cons, List.filter_cons]
          rw [hrest]
          simp [DefState.owner]
    rw [hnil s.table (hall.mp h1)]
    rfl

/-- Concrete session for the C1 witness: one symbol resolved by
responsibility 3, no dependencies. -/
def sC1 : SessionSt :=
  ⟨⟨[]⟩, [], [], [⟨0, 7, ⟨0, 0⟩, 0, .resolvedSt 3 ⟨42, ⟨0, 0⟩⟩⟩], [], [], 1, 1, 4⟩

/-- Responsibility for the C1 witness. -/
def mrC1 : MaterializationResponsibility := ⟨3, 0⟩

theorem C1_notify_emitted_contract_witness :
    ((notify_emitted sC1 mrC1).isOk ↔
      ((∀ e ∈ sC1.table, e.state ≠ DefState.pendingSt mrC1.id)
        ∧ ∀ ed ∈ sC1.deps, ed.1 ∈ nodesOf sC1 mrC1 → ed.2 ∉ sC1.failed))
    ∧ (∀ p, notify_emitted sC1 mrC1 = .error p → p.1 = mrC1)
    ∧ (∀ s2, notify_emitted sC1 mrC1 = .ok s2 → governedSyms s2 mrC1 = []) :=
  C1_notify_emitted_contract sC1 mrC1

/-- C2: `fail_materialization` fails every not-yet-emitted symbol of the
responsibility and every symbol transitively depending on one of them,
removing them from their namespaces, so a lookup on such a symbol observes
failure rather than success. -/
theorem C2_fail_propagation (s : SessionSt) (mr : MaterializationResponsibility)
    (x y : Node)
    (hnodup : (s.table.map (fun e => (e.dylib, e.sym))).Nodup)
    (hy : y ∈ nodesOf s mr)
    (hxy : DependsOn s.deps x y ∨ x = y)
    (hx : ∃ e, e ∈ s.table ∧ (e.dylib, e.sym) = x ∧ e.state.isEmitted = false) :
    x ∈ (fail_materialization s mr).failed
    ∧ (∀ e ∈ (fail_materialization s mr).table, (e.dylib, e.sym) ≠ x)
    ∧ lookupSym (fail_materialization s mr) x = LookupOutcome.failure := by
  obtain ⟨e0, he0mem, he0node, he0emit⟩ := hx
  have hxF : x ∈ closeDeps s.deps (nodesOf s mr) := by
    rcases hxy with h | h
    · exact h.mem_closeDeps (closeDeps_subset _ _ hy)
    · subst h; exact closeDeps_subset _ _ hy
  have hfailed : x ∈ (fail_materialization s mr).failed := by
    simp only [fail_materialization]
    apply List.mem_append_right
    rw [List.mem_filter]
    refine ⟨hxF, ?_⟩
    rw [List.any_eq_true]
    exact ⟨e0, he0mem, by simp [he0node, he0emit]⟩
  refine ⟨hfailed, ?_, ?_⟩
  · intro e hemem heq
    simp only [fail_materialization, List.mem_filter] at hemem
    obtain ⟨hmemtable, hpred⟩ := hemem
    have he : e = e0 :=
      List.inj_on_of_nodup_map hnodup hmemtable he0mem (by rw [heq, he0node])
    subst he
    rw [heq] at hpred
    simp [hxF, he0emit] at hpred
  · simp [lookupSym, hfailed]

/-- Concrete session for the C2 witness: symbol `(0, 1)` (owned by another
responsibility) depends on `(0, 2)`, owned by the failing responsibility 9. -/
def sC2 : SessionSt :=
  ⟨⟨[]⟩, [], [],
    [⟨0, 1, ⟨0, 0⟩, 0, .pendingSt 5⟩, ⟨0, 2, ⟨0, 0⟩, 0, .pendingSt 9⟩],
    [((0, 1), (0, 2))], [], 1, 1, 10⟩

/-- Responsibility for the C2 witness. -/
def mrC2 : MaterializationResponsibility := ⟨9, 0⟩

theorem C2_fail_propagation_witness :
    ((sC2.table.map (fun e => (e.dylib, e.sym))).Nodup
      ∧ ((0, 2) : Node) ∈ nodesOf sC2 mrC2
      ∧ (DependsOn sC2.deps (0, 1) (0, 2) ∨ ((0, 1) : Node) = (0, 2))
      ∧ (∃ e, e ∈ sC2.table ∧ (e.dylib, e.sym) = ((0, 1) : Node)
          ∧ e.state.isEmitted = false))
    ∧ (((0, 1) : Node) ∈ (fail_materialization sC2 mrC2).failed
      ∧ (∀ e ∈ (fail_materialization sC2 mrC2).table,
          (e.dylib, e.sym) ≠ ((0, 1) : Node))
      ∧ lookupSym (fail_materialization sC2 mrC2) ((0, 1) : Node)
          = LookupOutcome.failure) :=
  ⟨⟨by decide, by decide, Or.inl (DependsOn.base (by decide)),
    ⟨⟨0, 1, ⟨0, 0⟩, 0, .pendingSt 5⟩, by decide, by decide, by decide⟩⟩,
   C2_fail_propagation sC2 mrC2 (0, 1) (0, 2) (by decide) (by decide)
     (Or.inl (DependsOn.base (by decide)))
     ⟨⟨0, 1, ⟨0, 0⟩, 0, .pendingSt 5⟩, by decide, by decide, by decide⟩⟩

/-! ### Properties of `entryFor` -/

theorem entryFor_mem {l : List TableEntry} {d : DylibId} {x : Sym} {e : TableEntry}
    (h : entryFor l d x = some e) : e ∈ l ∧ e.dylib = d ∧ e.sym = x := by
  induction l with
  | nil => simp [entryFor] at h
  | cons a rest ih =>
    by_cases hc : a.dylib = d ∧ a.sym = x
    · rw [entryFor, if_pos hc] at h
      cases h
      exact ⟨by simp, hc⟩
    · rw [entryFor, if_neg hc] at h
      obtain ⟨hmem, hd, hx⟩ := ih h
      exact ⟨by simp [hmem], hd, hx⟩

theorem entryFor_append_none {l1 l2 : List TableEntry} {d : DylibId} {x : Sym}
    (h : entryFor l1 d x = none) : entryFor (l1 ++ l2) d x = entryFor l2 d x := by
  induction l1 with
  | nil => rfl
  | cons a rest ih =>
    by_cases hc : a.dylib = d ∧ a.sym = x
    · rw [entryFor, if_pos hc] at h
      cases h
    · rw [entryFor, if_neg hc] at h
      rw [List.cons_append, entryFor, if_neg hc]
      exact ih h

theorem entryFor_map {l : List TableEntry} {f : TableEntry → TableEntry}
    (hf : ∀ e, (f e).dylib = e.dylib ∧ (f e).sym = e.sym) (d : DylibId) (x : Sym) :
    entryFor (l.map f) d x = (entryFor l d x).map f := by
  induction l with
  | nil => rfl
  | cons a rest ih =>
    by_cases hc : a.dylib = d ∧ a.sym = x
    · rw [List.map_cons, entryFor, entryFor, if_pos hc,
        if_pos (by rw [(hf a).1, (hf a).2]; exact hc)]
      rfl
    · rw [List.map_cons, entryFor, entryFor, if_neg hc,
        if_neg (by rw [(hf a).1, (hf a).2]; exact hc)]
      exact ih

theorem entryFor_eq_of_nodup {l : List TableEntry}
    (hnodup : (l.map (fun e => (e.dylib, e.sym))).Nodup)
    {e : TableEntry} (he : e ∈ l) : entryFor l e.dylib e.sym = some e := by
  induction l with
  | nil => simp at he
  | cons a rest ih =>
    rw [List.map_cons, List.nodup_cons] at hnodup
    rcases List.mem_cons.mp he with hea | herest
    · subst hea
      rw [entryFor, if_pos ⟨rfl, rfl⟩]
    · have hne : ¬(a.dylib = e.dylib ∧ a.sym = e.sym) := by
        rintro ⟨h1, h2⟩
        exact hnodup.1 (by
          rw [show (a.dylib, a.sym) = (e.dylib, e.sym) by rw [h1, h2]]
          exact List.mem_map_of_mem _ herest)
      rw [entryFor, if_neg hne]
      exact ih hnodup.2 herest

theorem entryFor_map_pending (syms : List (Sym × SymbolFlags)) (d : DylibId)
    (fl : TrackerId) (n : RespId) (x : Sym) (hx : ∃ p ∈ syms, p.1 = x) :
    ∃ e, entryFor (syms.map
        (fun p => (⟨d, p.1, p.2, fl, .pendingSt n⟩ : TableEntry))) d x = some e
      ∧ e.state = DefState.pendingSt n := by
  induction syms with
  | nil => simp at hx
  | cons q rest ih =>
    by_cases hq : q.1 = x
    · refine ⟨⟨d, q.1, q.2, fl, .pendingSt n⟩, ?_, rfl⟩
      rw [List.map_cons, entryFor, if_pos ⟨rfl, hq⟩]
    · obtain ⟨p, hp, hpx⟩ := hx
      rcases List.mem_cons.mp hp with hpq | hprest
      · subst hpq
        exact absurd hpx hq
      · obtain ⟨e, he, hst⟩ := ih ⟨p, hprest, hpx⟩
        refine ⟨e, ?_, hst⟩
        rw [List.map_cons, entryFor, if_neg (by simpa using hq)]
        exact he

/-- C4: `define` claims every declared symbol as pending; it fails, without
mutating the namespace, exactly when some declared name already has a
definition, and the duplicate-symbol case is an ordinary error value. -/
theorem C4_define_contract (s : SessionSt) (d : DylibId)
    (u : MaterializationUnit) :
    ((define s d u).isOk ↔ ∀ p ∈ u.symbols, entryFor s.table d p.1 = none)
    ∧ (∀ s2, define s d u = .ok s2 → ∀ p ∈ u.symbols,
        ∃ e, entryFor s2.table d p.1 = some e ∧ e.state.isPending = true)
    ∧ (∀ err, define s d u = .error err →
        defineIn s d u = (s, some err) ∧ err = OrcError.duplicateDefinition) := by
  have hcond : (u.symbols.any (fun p => (entryFor s.table d p.1).isSome)) = false ↔
      ∀ p ∈ u.symbols, entryFor s.table d p.1 = none := by
    rw [← Bool.not_eq_true, List.any_eq_true]
    constructor
    · intro h p hp
      cases he : entryFor s.table d p.1 with
      | none => rfl
      | some e => exact absurd ⟨p, hp, by simp [he]⟩ h
    · rintro h ⟨p, hp, hsome⟩
      rw [h p hp] at hsome
      simp at hsome
  refine ⟨?_, ?_, ?_⟩
  · constructor
    · intro hok
      apply hcond.mp
      by_contra hc
      rw [Bool.not_eq_false] at hc
      simp [define, hc, Except.isOk, Except.toBool] at hok
    · intro hnone
      simp [define, hcond.mpr hnone, Except.isOk, Except.toBool]
  · intro s2 hok p hp
    have hc : (u.symbols.any (fun p => (entryFor s.table d p.1).isSome)) = false := by
      by_contra hc
      rw [Bool.not_eq_false] at hc
      simp [define, hc] at hok
    have hs2 : s2 = { s with
        table := s.table ++ u.symbols.map
          (fun p => ⟨d, p.1, p.2, (defaultTrackerOf s d).getD 0, .pendingSt s.nextResp⟩),
        nextResp := s.nextResp + 1 } := by
      have h2 := hok
      rw [define, if_neg (by simp [hc])] at h2
      cases h2
      rfl
    subst hs2
    have hnone := hcond.mp hc p hp
    obtain ⟨e, he, hst⟩ := entryFor_map_pending u.symbols d
      ((defaultTrackerOf s d).getD 0) s.nextResp p.1 ⟨p, hp, rfl⟩
    refine ⟨e, ?_, by simp [hst, DefState.isPending]⟩
    show entryFor (s.table ++ _) d p.1 = some e
    rw [entryFor_append_none hnone]
    exact he
  · intro err herr
    have hc : (u.symbols.any (fun p => (entryFor s.table d p.1).isSome)) = true := by
      by_contra hc
      rw [Bool.not_eq_true] at hc
      simp [define, hc] at herr
    rw [define, if_pos (by simp [hc])] at herr
    cases herr
    constructor
    · rw [defineIn, define, if_pos (by simp [hc])]
    · rfl

/-- Concrete data for the C4 witness. -/
def sC4 : SessionSt :=
  ⟨⟨[]⟩, [⟨0, "main_jd", 0⟩], [⟨0, 0, true⟩], [], [], [], 1, 1, 0⟩

/-- Materialization unit for the C4 witness. -/
def uC4 : MaterializationUnit := ⟨"unit", [(3, ⟨0, 0⟩), (4, ⟨0, 0⟩)], none⟩

theorem C4_define_contract_witness :
    ((define sC4 0 uC4).isOk ↔ ∀ p ∈ uC4.symbols, entryFor sC4.table 0 p.1 = none)
    ∧ (∀ s2, define sC4 0 uC4 = .ok s2 → ∀ p ∈ uC4.symbols,
        ∃ e, entryFor s2.table 0 p.1 = some e ∧ e.state.isPending = true)
    ∧ (∀ err, define sC4 0 uC4 = .error err →
        defineIn sC4 0 uC4 = (sC4, some err) ∧ err = OrcError.duplicateDefinition) :=
  C4_define_contract sC4 0 uC4

/-- C9: `create_jit_dylib` fails exactly when a namespace with that name
already exists in the session (reporting a duplicate-name error), while
`create_bare_jit_dylib` always returns a namespace registered under the
requested name. -/
theorem C9_create_dylib (s : SessionSt) (name : String) :
    ((create_jit_dylib s name).isOk ↔ ∀ d ∈ s.dylibs, d.name ≠ name)
    ∧ (∀ err, create_jit_dylib s name = .error err →
        err = OrcError.duplicateDylibName)
    ∧ (∀ s2 d2, create_jit_dylib s name = .ok (s2, d2) →
        ∃ info ∈ s2.dylibs, info.id = d2 ∧ info.name = name)
    ∧ (∃ info ∈ (create_bare_jit_dylib s name).1.dylibs,
        info.id = (create_bare_jit_dylib s name).2 ∧ info.name = name) := by
  have hcond : (s.dylibs.any (fun d => decide (d.name = name))) = false ↔
      ∀ d ∈ s.dylibs, d.name ≠ name := by
    rw [← Bool.not_eq_true, List.any_eq_true]
    constructor
    · intro h d hd hc
      exact h ⟨d, hd, by simp [hc]⟩
    · rintro h ⟨d, hd, hc⟩
      simp only [decide_eq_true_eq] at hc
      exact h d hd hc
  refine ⟨?_, ?_, ?_, ?_⟩
  · constructor
    · intro hok
      apply hcond.mp
      by_contra hc
      rw [Bool.not_eq_false] at hc
      simp [create_jit_dylib, hc, Except.isOk, Except.toBool] at hok
    · intro hnone
      simp [create_jit_dylib, hcond.mpr hnone, Except.isOk, Except.toBool]
  · intro err herr
    by_cases hc : (s.dylibs.any (fun d => decide (d.name = name))) = true
    · rw [create_jit_dylib, if_pos (by simp [hc])] at herr
      cases herr
      rfl
    · rw [Bool.not_eq_true] at hc
      simp [create_jit_dylib, hc] at herr
  · intro s2 d2 hok
    have hc : (s.dylibs.any (fun d => decide (d.name = name))) = false := by
      by_contra hc
      rw [Bool.not_eq_false] at hc
      simp [create_jit_dylib, hc] at hok
    rw [create_jit_dylib, if_neg (by simp [hc])] at hok
    injection hok with hpair
    injection hpair with h1 h2
    subst h1
    subst h2
    exact ⟨⟨s.nextDylib, name, s.nextTracker⟩, by simp, rfl, rfl⟩
  · exact ⟨⟨s.nextDylib, name, s.nextTracker⟩, by simp [create_bare_jit_dylib],
      rfl, rfl⟩

/-- Concrete session for the C9 witness: one namespace named `"main"`. -/
def sC9 : SessionSt :=
  ⟨⟨[]⟩, [⟨0, "main", 0⟩], [⟨0, 0, true⟩], [], [], [], 1, 1, 0⟩

theorem C9_create_dylib_witness :
    ((create_jit_dylib sC9 "main").isOk ↔ ∀ d ∈ sC9.dylibs, d.name ≠ "main")
    ∧ (∀ err, create_jit_dylib sC9 "main" = .error err →
        err = OrcError.duplicateDylibName)
    ∧ (∀ s2 d2, create_jit_dylib sC9 "main" = .ok (s2, d2) →
        ∃ info ∈ s2.dylibs, info.id = d2 ∧ info.name = "main")
    ∧ (∃ info ∈ (create_bare_jit_dylib sC9 "main").1.dylibs,
        info.id = (create_bare_jit_dylib sC9 "main").2 ∧ info.name = "main") :=
  C9_create_dylib sC9 "main"

/-- Well-formedness of a session: every responsibility id recorded in the
table is below the fresh-id counter. -/
def ownersBelow (s : SessionSt) : Bool :=
  s.table.all (fun e => match e.state.owner with
    | some r => decide (r < s.nextResp)
    | none => true)

theorem ownersBelow_spec {s : SessionSt} (h : ownersBelow s = true) :
    ∀ e ∈ s.table, ∀ r, e.state.owner = some r → r < s.nextResp := by
  intro e he r hr
  have h2 := List.all_eq_true.mp h e he
  rw [hr] at h2
  simpa using h2

theorem delegUpdate_key (mr : MaterializationResponsibility) (names : List Sym)
    (nid : RespId) (e : TableEntry) :
    (delegUpdate mr names nid e).dylib = e.dylib
    ∧ (delegUpdate mr names nid e).sym = e.sym := by
  rw [delegUpdate]
  split <;> simp

/-- C5: `delegate` moves ownership of exactly the requested pending subset to
the freshly created responsibility, never duplicating it: afterwards the new
responsibility governs exactly the subset, the original governs exactly the
remainder, and the original rejects `notify_resolved` for a delegated
symbol. -/
theorem C5_delegate_contract (s : SessionSt) (mr : MaterializationResponsibility)
    (names : List Sym) (s2 : SessionSt) (mr2 : MaterializationResponsibility)
    (hnodup : (s.table.map (fun e => (e.dylib, e.sym))).Nodup)
    (hwf : ownersBelow s = true)
    (hmr : mr.id < s.nextResp)
    (hdel : delegate s mr names = .ok (s2, mr2)) :
    mr2.id ≠ mr.id
    ∧ (∀ x, x ∈ governedSyms s2 mr2 ↔ (x ∈ names ∧ ownedPending s mr x = true))
    ∧ (∀ x, x ∈ governedSyms s2 mr ↔ (x ∈ governedSyms s mr ∧ x ∉ names))
    ∧ (∀ x ∈ names, ∀ v,
        notify_resolved s2 mr [(x, v)] = .error OrcError.unknownSymbol) := by
  have hall : names.all (fun x => ownedPending s mr x) = true := by
    by_contra hc
    rw [Bool.not_eq_true] at hc
    simp [delegate, hc] at hdel
  rw [delegate, if_pos hall] at hdel
  injection hdel with hpair
  injection hpair with h1 h2
  subst h1
  subst h2
  have hfresh := ownersBelow_spec hwf
  have hf : ∀ e, (delegUpdate mr names s.nextResp e).dylib = e.dylib
      ∧ (delegUpdate mr names s.nextResp e).sym = e.sym :=
    fun e => delegUpdate_key mr names s.nextResp e
  refine ⟨?_, ?_, ?_, ?_⟩
  · exact Nat.ne_of_gt hmr
  · intro x
    constructor
    · intro hx
      simp only [governedSyms, List.mem_map, List.mem_filter] at hx
      obtain ⟨e', ⟨he'm, hpred⟩, hsym⟩ := hx
      obtain ⟨e, hem, hfe⟩ := he'm
      subst hfe
      simp only [Bool.and_eq_true, decide_eq_true_eq] at hpred
      by_cases hcond : e.dylib = mr.dylib ∧ e.state = DefState.pendingSt mr.id
          ∧ e.sym ∈ names
      · have hfe2 : delegUpdate mr names s.nextResp e
            = { e with state := .pendingSt s.nextResp } := by
          rw [delegUpdate, if_pos hcond]
        rw [hfe2] at hsym
        have hsymx : e.sym = x := hsym
        constructor
        · rw [← hsymx]
          exact hcond.2.2
        · have hent : entryFor s.table mr.dylib x = some e := by
            have h3 := entryFor_eq_of_nodup hnodup hem
            rw [hcond.1, hsymx] at h3
            exact h3
          unfold ownedPending
          rw [hent]
          simp [hcond.2.1]
      · have hfe2 : delegUpdate mr names s.nextResp e = e := by
          rw [delegUpdate, if_neg hcond]
        rw [hfe2] at hpred
        have hlt := hfresh e hem s.nextResp hpred.2
        exact absurd hlt (lt_irrefl _)
    · rintro ⟨hxnames, hxop⟩
      unfold ownedPending at hxop
      cases hent : entryFor s.table mr.dylib x with
      | none => rw [hent] at hxop; simp at hxop
      | some e =>
        rw [hent] at hxop
        simp only [decide_eq_true_eq] at hxop
        obtain ⟨hem, hed, hex⟩ := entryFor_mem hent
        have hcond : e.dylib = mr.dylib ∧ e.state = DefState.pendingSt mr.id
            ∧ e.sym ∈ names := ⟨hed, hxop, by rw [hex]; exact hxnames⟩
        simp only [governedSyms, List.mem_map, List.mem_filter]
        refine ⟨delegUpdate mr names s.nextResp e, ⟨⟨e, hem, rfl⟩, ?_⟩, ?_⟩
        · rw [delegUpdate, if_pos hcond]
          simp [DefState.owner, hcond.1]
        · rw [delegUpdate, if_pos hcond]
          exact hex
  · intro x
    constructor
    · intro hx
      simp only [governedSyms, List.mem_map, List.mem_filter] at hx
      obtain ⟨e', ⟨he'm, hpred⟩, hsym⟩ := hx
      obtain ⟨e, hem, hfe⟩ := he'm
      subst hfe
      simp only [Bool.and_eq_true, decide_eq_true_eq] at hpred
      by_cases hcond : e.dylib = mr.dylib ∧ e.state = DefState.pendingSt mr.id
          ∧ e.sym ∈ names
      · exfalso
        have hfe2 : delegUpdate mr names s.nextResp e
            = { e with state := .pendingSt s.nextResp } := by
          rw [delegUpdate, if_pos hcond]
        rw [hfe2] at hpred
        have h3 := hpred.2
        simp only [DefState.owner, Option.some.injEq] at h3
        exact absurd h3 (Nat.ne_of_gt hmr)
      · have hfe2 : delegUpdate mr names s.nextResp e = e := by
          rw [delegUpdate, if_neg hcond]
        rw [hfe2] at hpred hsym
        constructor
        · simp only [governedSyms, List.mem_map, List.mem_filter]
          exact ⟨e, ⟨hem, by simp [hpred.1, hpred.2]⟩, hsym⟩
        · intro hxnames
          have hop := List.all_eq_true.mp hall x hxnames
          unfold ownedPending at hop
          cases hent : entryFor s.table mr.dylib x with
          | none => rw [hent] at hop; simp at hop
          | some e1 =>
            rw [hent] at hop
            simp only [decide_eq_true_eq] at hop
            have hentE : entryFor s.table mr.dylib x = some e := by
              have h3 := entryFor_eq_of_nodup hnodup hem
              rw [hpred.1, hsym] at h3
              exact h3
            rw [hentE] at hent
            cases hent
            exact hcond ⟨hpred.1, hop, by rw [hsym]; exact hxnames⟩
    · rintro ⟨hxg, hxnot⟩
      simp only [governedSyms, List.mem_map, List.mem_filter] at hxg ⊢
      obtain ⟨e, ⟨hem, hpred⟩, hsym⟩ := hxg
      simp only [Bool.and_eq_true, decide_eq_true_eq] at hpred
      have hcond : ¬(e.dylib = mr.dylib ∧ e.state = DefState.pendingSt mr.id
          ∧ e.sym ∈ names) := by
        rintro ⟨-, -, hmem⟩
        rw [hsym] at hmem
        exact hxnot hmem
      have hfe2 : delegUpdate mr names s.nextResp e = e := by
        rw [delegUpdate, if_neg hcond]
      refine ⟨e, ⟨⟨e, hem, hfe2⟩, ?_⟩, hsym⟩
      simp [hpred.1, hpred.2]
  · intro x hx v
    have hop := List.all_eq_true.mp hall x hx
    unfold ownedPending at hop
    cases hent : entryFor s.table mr.dylib x with
    | none => rw [hent] at hop; simp at hop
    | some e =>
      rw [hent] at hop
      simp only [decide_eq_true_eq] at hop
      obtain ⟨hem, hed, hex⟩ := entryFor_mem hent
      have hcond : e.dylib = mr.dylib ∧ e.state = DefState.pendingSt mr.id
          ∧ e.sym ∈ names := ⟨hed, hop, by rw [hex]; exact hx⟩
      have hmapped : entryFor (s.table.map (delegUpdate mr names s.nextResp))
          mr.dylib x = some (delegUpdate mr names s.nextResp e) := by
        rw [entryFor_map hf, hent]
        rfl
      have hup : delegUpdate mr names s.nextResp e
          = { e with state := .pendingSt s.nextResp } := by
        rw [delegUpdate, if_pos hcond]
      have hownfalse : ownedPending { s with
          table := s.table.map (delegUpdate mr names s.nextResp),
          nextResp := s.nextResp + 1 } mr x = false := by
        unfold ownedPending
        rw [show ({ s with
            table := s.table.map (delegUpdate mr names s.nextResp),
            nextResp := s.nextResp + 1 } : SessionSt).table
          = s.table.map (delegUpdate mr names s.nextResp) from rfl]
        rw [hmapped, hup]
        simp only [decide_eq_false_iff_not]
        intro hc
        have hc2 : DefState.pendingSt s.nextResp = DefState.pendingSt mr.id := hc
        injection hc2 with hc3
        exact absurd hc3 (Nat.ne_of_gt hmr)
      rw [notify_resolved, if_neg (by simp [hownfalse])]

/-- Concrete session for the C5 witness: two pending symbols owned by
responsibility 0 in namespace 0. -/
def sC5 : SessionSt :=
  ⟨⟨[]⟩, [], [],
    [⟨0, 10, ⟨0, 0⟩, 0, .pendingSt 0⟩, ⟨0, 11, ⟨0, 0⟩, 0, .pendingSt 0⟩],
    [], [], 0, 0, 1⟩

/-- Original responsibility for the C5 witness. -/
def mrC5 : MaterializationResponsibility := ⟨0, 0⟩

/-- Session after delegating symbol 10 in the C5 witness. -/
def sC5d : SessionSt :=
  ⟨⟨[]⟩, [], [],
    [⟨0, 10, ⟨0, 0⟩, 0, .pendingSt 1⟩, ⟨0, 11, ⟨0, 0⟩, 0, .pendingSt 0⟩],
    [], [], 0, 0, 2⟩

/-- Fresh responsibility created by the delegation in the C5 witness. -/
def mrC5d : MaterializationResponsibility := ⟨1, 0⟩

theorem C5_delegate_contract_witness :
    ((sC5.table.map (fun e => (e.dylib, e.sym))).Nodup
      ∧ ownersBelow sC5 = true
      ∧ mrC5.id < sC5.nextResp
      ∧ delegate sC5 mrC5 [10] = .ok (sC5d, mrC5d))
    ∧ (mrC5d.id ≠ mrC5.id
      ∧ (∀ x, x ∈ governedSyms sC5d mrC5d ↔
          (x ∈ [10] ∧ ownedPending sC5 mrC5 x = true))
      ∧ (∀ x, x ∈ governedSyms sC5d mrC5 ↔
          (x ∈ governedSyms sC5 mrC5 ∧ x ∉ [10]))
      ∧ (∀ x ∈ [10], ∀ v,
          notify_resolved sC5d mrC5 [(x, v)] = .error OrcError.unknownSymbol)) :=
  ⟨⟨by decide, by decide, by decide, rfl⟩,
   C5_delegate_contract sC5 mrC5 [10] sC5d mrC5d (by decide) (by decide)
     (by decide) rfl⟩

/-- C6: `ResourceTracker::remove` retracts every definition the tracker owns
whatever its state (and nothing else), reports a discard for exactly the
covered symbols it had not yet resolved, fails every covered symbol not yet
emitted (no dangling pending state), and consumes the tracker handle. -/
theorem C6_remove_tracker (s : SessionSt) (t : TrackerId) :
    (∀ e ∈ (removeTracker s t).1.table, e.tracker ≠ t)
    ∧ (∀ e ∈ s.table, e.tracker ≠ t → e ∈ (removeTracker s t).1.table)
    ∧ (∀ e ∈ s.table, e.tracker = t → e.state.isPending = true →
        (e.dylib, e.sym) ∈ (removeTracker s t).2)
    ∧ (∀ n ∈ (removeTracker s t).2, ∃ e ∈ s.table,
        e.tracker = t ∧ e.state.isPending = true ∧ (e.dylib, e.sym) = n)
    ∧ (∀ e ∈ s.table, e.tracker = t → e.state.isEmitted = false →
        (e.dylib, e.sym) ∈ (removeTracker s t).1.failed)
    ∧ (∀ i ∈ (removeTracker s t).1.trackers, i.id ≠ t) := by
  refine ⟨?_, ?_, ?_, ?_, ?_, ?_⟩
  · intro e he
    simp only [removeTracker, List.mem_filter, Bool.not_eq_true',
      decide_eq_false_iff_not] at he
    exact he.2
  · intro e he hne
    simp only [removeTracker, List.mem_filter]
    exact ⟨he, by simp [hne]⟩
  · intro e he ht hp
    simp only [removeTracker, List.mem_map]
    refine ⟨e, ?_, rfl⟩
    rw [List.mem_filter, List.mem_filter]
    exact ⟨⟨he, by simp [ht]⟩, hp⟩
  · intro n hn
    simp only [removeTracker, List.mem_map, List.mem_filter] at hn
    obtain ⟨e, ⟨⟨he, hte⟩, hp⟩, hne⟩ := hn
    exact ⟨e, he, by simpa using hte, hp, hne⟩
  · intro e he ht hem
    simp only [removeTracker]
    apply List.mem_append_right
    simp only [List.mem_map, List.mem_filter]
    exact ⟨e, ⟨⟨he, by simp [ht]⟩, by simp [hem]⟩, rfl⟩
  · intro i hi
    simp only [removeTracker, List.mem_filter, Bool.not_eq_true',
      decide_eq_false_iff_not] at hi
    exact hi.2

/-- Concrete session for the C6 witness: symbols `a = 1` (resolved) and
`b = 2` (pending) under the explicitly created tracker 5. -/
def sC6 : SessionSt :=
  ⟨⟨[]⟩, [⟨0, "jd", 0⟩], [⟨0, 0, true⟩, ⟨5, 0, false⟩],
    [⟨0, 1, ⟨0, 0⟩, 5, .resolvedSt 0 ⟨7, ⟨0, 0⟩⟩⟩, ⟨0, 2, ⟨0, 0⟩, 5, .pendingSt 0⟩],
    [], [], 1, 6, 1⟩

theorem C6_remove_tracker_witness :
    (∀ e ∈ (removeTracker sC6 5).1.table, e.tracker ≠ 5)
    ∧ (∀ e ∈ sC6.table, e.tracker ≠ 5 → e ∈ (removeTracker sC6 5).1.table)
    ∧ (∀ e ∈ sC6.table, e.tracker = 5 → e.state.isPending = true →
        (e.dylib, e.sym) ∈ (removeTracker sC6 5).2)
    ∧ (∀ n ∈ (removeTracker sC6 5).2, ∃ e ∈ sC6.table,
        e.tracker = 5 ∧ e.state.isPending = true ∧ (e.dylib, e.sym) = n)
    ∧ (∀ e ∈ sC6.table, e.tracker = 5 → e.state.isEmitted = false →
        (e.dylib, e.sym) ∈ (removeTracker sC6 5).1.failed)
    ∧ (∀ i ∈ (removeTracker sC6 5).1.trackers, i.id ≠ 5) :=
  C6_remove_tracker sC6 5

/-- C7: dropping a `ResourceTracker` handle performs a release exactly when
it is not the default tracker; releasing folds every definition the tracker
owns back to its namespace's default tracker with its state unchanged, and
leaves all other definitions untouched. -/
theorem C7_tracker_release (s : SessionSt) (tr : ResourceTracker)
    (h : tr.rt ≠ 0) :
    (dropsRelease tr = true ↔ tr.isDefaultHandle = false)
    ∧ dropsRelease (get_default_resource_tracker tr.rt) = false
    ∧ (tr.isDefaultHandle = false → dropTracker s tr = releaseTracker s tr.rt)
    ∧ (tr.isDefaultHandle = true → dropTracker s tr = s)
    ∧ (∀ e ∈ s.table, e.tracker = tr.rt → ∀ dt,
        defaultTrackerOf s e.dylib = some dt →
        { e with tracker := dt } ∈ (releaseTracker s tr.rt).table)
    ∧ (∀ e ∈ s.table, e.tracker ≠ tr.rt → e ∈ (releaseTracker s tr.rt).table) := by
  refine ⟨?_, ?_, ?_, ?_, ?_, ?_⟩
  · cases hd : tr.isDefaultHandle <;> simp [dropsRelease, hd, h]
  · simp [dropsRelease, get_default_resource_tracker]
  · intro hd
    rw [dropTracker, if_pos]
    simp [dropsRelease, hd, h]
  · intro hd
    rw [dropTracker, if_neg]
    simp [dropsRelease, hd]
  · intro e he ht dt hdt
    simp only [releaseTracker]
    have heq : releaseUpdate s tr.rt e = { e with tracker := dt } := by
      rw [releaseUpdate, if_pos ht, hdt]
      rfl
    rw [← heq]
    exact List.mem_map_of_mem _ he
  · intro e he hne
    simp only [releaseTracker]
    have heq : releaseUpdate s tr.rt e = e := by
      rw [releaseUpdate, if_neg hne]
    rw [← heq]
    exact List.mem_map_of_mem _ he

/-- Concrete session for the C7 witness: one entry under the non-default
tracker 1, whose namespace's default tracker is 0. -/
def sC7 : SessionSt :=
  ⟨⟨[]⟩, [⟨0, "jd", 0⟩], [⟨0, 0, true⟩, ⟨1, 0, false⟩],
    [⟨0, 3, ⟨0, 0⟩, 1, .emittedSt ⟨9, ⟨0, 0⟩⟩⟩], [], [], 1, 2, 0⟩

/-- Non-default tracker handle for the C7 witness. -/
def trC7 : ResourceTracker := ⟨1, false⟩

theorem C7_tracker_release_witness :
    trC7.rt ≠ 0
    ∧ ((dropsRelease trC7 = true ↔ trC7.isDefaultHandle = false)
      ∧ dropsRelease (get_default_resource_tracker trC7.rt) = false
      ∧ (trC7.isDefaultHandle = false →
          dropTracker sC7 trC7 = releaseTracker sC7 trC7.rt)
      ∧ (trC7.isDefaultHandle = true → dropTracker sC7 trC7 = sC7)
      ∧ (∀ e ∈ sC7.table, e.tracker = trC7.rt → ∀ dt,
          defaultTrackerOf sC7 e.dylib = some dt →
          { e with tracker := dt } ∈ (releaseTracker sC7 trC7.rt).table)
      ∧ (∀ e ∈ sC7.table, e.tracker ≠ trC7.rt →
          e ∈ (releaseTracker sC7 trC7.rt).table)) :=
  ⟨by decide, C7_tracker_release sC7 trC7 (by decide)⟩

/-- C3 counterexample: the claim that each of `notify_emitted`, `delegate`,
`replace` and `fail_materialization` consumes the responsibility is false:
three of the four take it by shared reference. -/
theorem C3_counterexample :
    ¬(notifyEmittedSelfMode = SelfMode.byValue
      ∧ delegateSelfMode = SelfMode.byValue
      ∧ replaceSelfMode = SelfMode.byValue
      ∧ failMaterializationSelfMode = SelfMode.byValue) := by
  decide

/-- C3 (amended): only `notify_emitted` consumes the responsibility, taking
it by value (and handing it back on error); `delegate`, `replace` and
`fail_materialization` take it by shared reference, so the responsibility
remains usable after them and reuse is not prevented. -/
theorem C3_amended_receiver_modes :
    notifyEmittedSelfMode = SelfMode.byValue
    ∧ delegateSelfMode = SelfMode.byRef
    ∧ replaceSelfMode = SelfMode.byRef
    ∧ failMaterializationSelfMode = SelfMode.byRef := by
  decide

/-- C10: `define` and `replace` consume the materialization unit
unconditionally — the unit is moved even when the call reports an error —
unlike `notify_emitted`, which hands the responsibility back on error. -/
theorem C10_unit_always_consumed :
    (∀ b, defineUnitAfter b = OwnState.moved)
    ∧ (∀ b, replaceUnitAfter b = OwnState.moved)
    ∧ notifyEmittedRespAfter true = OwnState.live
    ∧ notifyEmittedRespAfter false = OwnState.moved := by
  decide

end Orc2
